import Mathlib

/-!
Shallow embedding of the core of the earnings_mover_scanner repository:
the session resolver and reaction metrics (intraday.py, analyzer.py) and
the consistency scorer (consistency.py).

Conventions of the embedding:
* Machine floats become exact rationals.
* A pandas timestamp is a wall-clock minute count together with an optional
  UTC offset in minutes (none models a zone-naive timestamp).
* A calendar date is the integer number of days since 1970-01-01, so that
  the Python weekday() of a date d is (d + 3) % 7 (Monday = 0, Sunday = 6).
* Nullable values (pd.NA, None) become Option.
* The network-backed methods of PolygonIntradayClient are modelled as an
  oracle structure of response functions; the pure session-day logic of
  intraday.py is embedded directly.
-/

namespace EarningsMoverScanner

/-- Python str.upper for the release flag strings: per-character ASCII
uppercasing, written over the character list so that it reduces in the
kernel (semantically String.toUpper). -/
def strUpper (s : String) : String :=
  ⟨s.data.map Char.toUpper⟩

/-- A pandas timestamp: wall-clock minutes since epoch in its own zone,
together with the zone offset (minutes east of UTC); none means zone-naive. -/
structure PyTimestamp where
  wall : ℤ
  offset : Option ℤ
deriving DecidableEq, Repr

/-- The calendar date (day number) shown by a timestamp, i.e. .date() :
the floor of the wall-clock minutes over the minutes of a day. -/
def dateOf (t : PyTimestamp) : ℤ :=
  Int.fdiv t.wall 1440

/-- Python date.weekday() for a day number: Monday = 0 .. Sunday = 6.
Day 0 is 1970-01-01, a Thursday. -/
def weekday (d : ℤ) : ℤ :=
  (d + 3) % 7

/-- One step of the while loop of _next_trading_day: while the day is a
Saturday or Sunday, advance by one day.  The fuel bounds the iteration;
7 units always suffice since weekday values cycle with period 7. -/
def skipWeekendFwd : ℕ → ℤ → ℤ
  | 0, d => d
  | n + 1, d => if 5 ≤ weekday d then skipWeekendFwd n (d + 1) else d

/-- PolygonIntradayClient._next_trading_day: the day after, skipping
Saturday and Sunday. -/
def next_trading_day (day : ℤ) : ℤ :=
  skipWeekendFwd 7 (day + 1)

/-- PolygonIntradayClient._normalize_timestamp with the exchange zone
abstracted as an offset function (minutes east of UTC, as a function of the
absolute minute, so daylight saving shifts are representable): a zone-naive
timestamp is first localized to UTC, then the timestamp is converted to the
exchange zone. -/
def normalize_timestamp (zone : ℤ → ℤ) (t : PyTimestamp) : PyTimestamp :=
  let t1 : PyTimestamp := match t.offset with
    | none => { t with offset := some 0 }
    | some _ => t
  let adj : ℤ := t1.offset.getD 0
  let abs : ℤ := t1.wall - adj
  { wall := abs + zone abs, offset := some (zone abs) }

/-- PolygonIntradayClient.get_session_day: none models the ValueError on an
unsupported release flag; AMC resolves to the next trading day after the
normalized calendar date, BMO to the normalized calendar date itself. -/
def get_session_day (zone : ℤ → ℤ) (earnings_date : PyTimestamp)
    (release_flag : String) : Option ℤ :=
  let flag := strUpper release_flag
  if flag = "AMC" ∨ flag = "BMO" then
    let earnings_ts := normalize_timestamp zone earnings_date
    if flag = "AMC" then some (next_trading_day (dateOf earnings_ts))
    else some (dateOf earnings_ts)
  else none

/-- One 5-minute OHLC bar (volume and timestamp are never read by the
analyzer and are omitted). -/
structure Bar where
  op : ℚ
  hi : ℚ
  lo : ℚ
  cl : ℚ
deriving DecidableEq, Repr

instance : Inhabited Bar := ⟨⟨0, 0, 0, 0⟩⟩

/-- One daily OHLCV bar as produced by get_daily_bars. -/
structure DailyBar where
  date : ℤ
  op : ℚ
  hi : ℚ
  lo : ℚ
  cl : ℚ
  vol : ℚ
deriving DecidableEq, Repr

/-- The network-backed queries of PolygonIntradayClient, modelled as an
oracle of response functions (an empty list models an empty DataFrame,
none models a missing previous close). -/
structure PolygonIntradayClient where
  get_intraday_window : String → PyTimestamp → String → List Bar
  get_previous_close : String → ℤ → Option ℚ
  get_daily_bars : String → ℤ → ℤ → List DailyBar

/-- One row of the events DataFrame as read by the analyzer: the raw
release flag string (missing becomes the empty string) and the optional
announcement timestamp. -/
structure Event where
  release_flag : String
  earnings_date : Option PyTimestamp
deriving DecidableEq, Repr

/-- One row of the reaction-metrics DataFrame built by analyze_ticker. -/
structure ReactionRecord where
  ticker : String
  earnings_date : PyTimestamp
  release_flag : String
  session_day : ℤ
  gap_ret : Option ℚ
  oc_ret : Option ℚ
  range_pct : Option ℚ
  openPrice : ℚ
  closePrice : ℚ
  highPrice : ℚ
  lowPrice : ℚ
  prev_close : Option ℚ
deriving DecidableEq, Repr

/-- Maximum of a list, as pandas Series.max over a non-empty column:
fold of max seeded with the head (the default value is only reached on the
empty list, which the callers rule out first). -/
def listMax {α : Type} [LinearOrder α] [Inhabited α] (l : List α) : α :=
  l.foldl max l.headI

/-- Minimum of a list, as pandas Series.min over a non-empty column. -/
def listMin {α : Type} [LinearOrder α] [Inhabited α] (l : List α) : α :=
  l.foldl min l.headI

/-- The gap / open-close / range metrics of analyzer.py lines 59-75 for one
session, given the intraday bars and the previous close. -/
structure ReactionCore where
  gap_ret : Option ℚ
  oc_ret : Option ℚ
  range_pct : Option ℚ
  openPrice : ℚ
  closePrice : ℚ
  highPrice : ℚ
  lowPrice : ℚ
deriving DecidableEq, Repr

/-- Reaction metrics from a bar series and the previous close, verbatim
from analyzer.py: open of the first bar, close of the last, max high,
min low; gap_ret only when the previous close is present and non-zero
(Python if prev_close and prev_close != 0), oc_ret and range_pct only when
the open is non-zero. -/
def computeReaction (bars : List Bar) (prev_close : Option ℚ) : ReactionCore :=
  let open_price := bars.headI.op
  let close_price := (bars.getLastD default).cl
  let high_price := listMax (bars.map Bar.hi)
  let low_price := listMin (bars.map Bar.lo)
  let gap_ret : Option ℚ := match prev_close with
    | some c => if c ≠ 0 then some (open_price / c - 1) else none
    | none => none
  let oc_ret : Option ℚ :=
    if open_price ≠ 0 then some (close_price / open_price - 1) else none
  let range_pct : Option ℚ :=
    if open_price ≠ 0 then some ((high_price - low_price) / open_price) else none
  ⟨gap_ret, oc_ret, range_pct, open_price, close_price, high_price, low_price⟩

/-- The body of the per-event loop of analyze_ticker: none models continue
(unsupported release flag, missing timestamp, or empty intraday window). -/
def processEvent (zone : ℤ → ℤ) (client : PolygonIntradayClient)
    (ticker : String) (event : Event) : Option ReactionRecord :=
  let release_flag := strUpper event.release_flag
  if release_flag = "AMC" ∨ release_flag = "BMO" then
    match event.earnings_date with
    | none => none
    | some earnings_date =>
      match get_session_day zone earnings_date release_flag with
      | none => none
      | some session_day =>
        let intraday_df := client.get_intraday_window ticker earnings_date release_flag
        if intraday_df = [] then none
        else
          let core := computeReaction intraday_df
            (client.get_previous_close ticker session_day)
          some ⟨ticker, earnings_date, release_flag, session_day,
            core.gap_ret, core.oc_ret, core.range_pct,
            core.openPrice, core.closePrice, core.highPrice, core.lowPrice,
            client.get_previous_close ticker session_day⟩
  else none

/-- The absolute instant of a timestamp (wall clock minus offset), used
as the comparison key when sorting events by announcement timestamp. -/
def absInstant (t : PyTimestamp) : ℤ :=
  t.wall - t.offset.getD 0

/-- Comparison used for events.sort_values on the earnings_date column:
timestamps ascending, missing timestamps last (na_position default). -/
def eventBefore (a b : Event) : Bool :=
  match a.earnings_date, b.earnings_date with
  | some x, some y => absInstant x ≤ absInstant y
  | some _, none => true
  | none, none => true
  | none, some _ => false

/-- EarningsReactionAnalyzer.analyze_ticker: empty input yields the empty
table; otherwise the events are sorted ascending by announcement timestamp
and each event contributes at most one reaction record. -/
def analyze_ticker (zone : ℤ → ℤ) (client : PolygonIntradayClient)
    (ticker : String) (events : List Event) : List ReactionRecord :=
  if events = [] then []
  else
    let events_sorted := events.insertionSort (fun a b => eventBefore a b = true)
    events_sorted.filterMap (processEvent zone client ticker)

/-- Median of a list of rationals, as pandas Series.median: sort ascending,
take the middle element for odd length, the mean of the two middle elements
for even length.  The empty list gives 0 (callers rule it out first). -/
def median (l : List ℚ) : ℚ :=
  let s := l.insertionSort (· ≤ ·)
  if l.length = 0 then 0
  else if l.length % 2 = 1 then s.getD (l.length / 2) 0
  else (s.getD (l.length / 2 - 1) 0 + s.getD (l.length / 2) 0) / 2

/-- The sign used on each oc_ret in the scorer. -/
def sgn (x : ℚ) : ℤ :=
  if x > 0 then 1 else if x < 0 then -1 else 0

/-- The consistency score record returned for one ticker. -/
structure ScoreRecord where
  hit_main_dir : ℚ
  big_move_hit : ℚ
  boost : ℚ
  score : ℚ
  events_count : ℕ
deriving DecidableEq, Repr

/-- The all-zero score record returned for an empty or all-missing table. -/
def zeroScore : ScoreRecord :=
  ⟨0, 0, 0, 0, 0⟩

/-- The ConsistencyScorer dataclass: the intraday client plus the baseline
sample size and the lookback, with the defaults of consistency.py. -/
structure ConsistencyScorer where
  intraday_client : PolygonIntradayClient
  sample_non_earnings_days : ℕ := 10
  non_earnings_lookback_days : ℤ := 120

/-- Descending-date order used on the baseline daily bars. -/
def dateDesc (a b : DailyBar) : Prop :=
  b.date ≤ a.date

instance : DecidableRel dateDesc := fun a b =>
  inferInstanceAs (Decidable (b.date ≤ a.date))

instance : IsTotal DailyBar dateDesc :=
  ⟨fun a b => le_total b.date a.date⟩

instance : IsTrans DailyBar dateDesc :=
  ⟨fun _ _ _ h1 h2 => le_trans h2 h1⟩

/-- ConsistencyScorer._median_abs_oc_non_earnings: the baseline median of
absolute open-close daily returns over the non-earnings sample. -/
def ConsistencyScorer.median_abs_oc_non_earnings (s : ConsistencyScorer)
    (ticker : String) (events_metrics : List ReactionRecord) : ℚ :=
  let session_days := events_metrics.map ReactionRecord.session_day
  if session_days = [] then 0
  else
    let end_day := listMax session_days
    let start_day := end_day - s.non_earnings_lookback_days
    let daily_bars := s.intraday_client.get_daily_bars ticker start_day end_day
    if daily_bars = [] then 0
    else
      let candidates :=
        ((daily_bars.filter (fun b => b.date ∉ session_days)).insertionSort
          dateDesc).take s.sample_non_earnings_days
      if candidates = [] then 0
      else median (candidates.map (fun b => |b.cl / b.op - 1|))

/-- ConsistencyScorer.score, verbatim from consistency.py. -/
def ConsistencyScorer.score (s : ConsistencyScorer) (ticker : String)
    (events_metrics : List ReactionRecord) : ScoreRecord :=
  if events_metrics = [] then zeroScore
  else
    let valid_events := events_metrics.filter (fun r => r.oc_ret.isSome)
    let events_count := valid_events.length
    if events_count = 0 then zeroScore
    else
      let ocs := valid_events.filterMap ReactionRecord.oc_ret
      let mean_oc := ocs.sum / (ocs.length : ℚ)
      let sign_mean : ℤ := if mean_oc > 0 then 1 else if mean_oc < 0 then -1 else 0
      let hit_main_dir : ℚ :=
        if sign_mean = 0 then 0
        else ((ocs.filter (fun x => sgn x = sign_mean)).length : ℚ) / (ocs.length : ℚ)
      let big_move_hit : ℚ :=
        ((ocs.filter (fun x => |x| ≥ 0.02)).length : ℚ) / (ocs.length : ℚ)
      let earnings_median_abs := median (ocs.map (fun x => |x|))
      let non_earnings_median_abs := s.median_abs_oc_non_earnings ticker valid_events
      let boost : ℚ :=
        if non_earnings_median_abs > 0 then earnings_median_abs / non_earnings_median_abs
        else 0
      let total := 0.5 * hit_main_dir + 0.3 * big_move_hit + 0.2 * boost
      ⟨hit_main_dir, big_move_hit, boost, total, events_count⟩

/-- A scorer built with the default sample and lookback parameters. -/
def mkScorer (client : PolygonIntradayClient) : ConsistencyScorer :=
  { intraday_client := client }

/-- The filtered records of the scorer: rows whose oc_ret is present. -/
def validOf (rows : List ReactionRecord) : List ReactionRecord :=
  rows.filter (fun r => r.oc_ret.isSome)

/-- The oc_ret values of the filtered records. -/
def ocsOf (rows : List ReactionRecord) : List ℚ :=
  (validOf rows).filterMap ReactionRecord.oc_ret

/-- The arithmetic mean of oc_ret over the filtered records. -/
def meanOc (rows : List ReactionRecord) : ℚ :=
  (ocsOf rows).sum / ((ocsOf rows).length : ℚ)

/-- The sign of the mean oc_ret. -/
def signMean (rows : List ReactionRecord) : ℤ :=
  if meanOc rows > 0 then 1 else if meanOc rows < 0 then -1 else 0

/-- The directional hit rate of the scorer. -/
def hitMainDir (rows : List ReactionRecord) : ℚ :=
  if signMean rows = 0 then 0
  else (((ocsOf rows).filter (fun x => sgn x = signMean rows)).length : ℚ) /
    ((ocsOf rows).length : ℚ)

/-- The big-move hit rate of the scorer. -/
def bigMoveHit (rows : List ReactionRecord) : ℚ :=
  (((ocsOf rows).filter (fun x => |x| ≥ 0.02)).length : ℚ) / ((ocsOf rows).length : ℚ)

/-- The median absolute oc_ret of the filtered records. -/
def earningsMedianAbs (rows : List ReactionRecord) : ℚ :=
  median ((ocsOf rows).map (fun x => |x|))

/-- The boost ratio of the scorer given the baseline median. -/
def boostOf (rows : List ReactionRecord) (non_earnings_median_abs : ℚ) : ℚ :=
  if non_earnings_median_abs > 0 then earningsMedianAbs rows / non_earnings_median_abs
  else 0

/-- A client whose every query returns no data, used to instantiate
universally quantified statements at a concrete input. -/
def wClient : PolygonIntradayClient :=
  ⟨fun _ _ _ => [], fun _ _ => none, fun _ _ _ => []⟩

/-- A concrete reaction record with a present oc_ret. -/
def wRecord : ReactionRecord :=
  { ticker := "T", earnings_date := ⟨0, some 0⟩, release_flag := "AMC",
    session_day := 0, gap_ret := none, oc_ret := some (1/10), range_pct := none,
    openPrice := 10, closePrice := 11, highPrice := 12, lowPrice := 9,
    prev_close := none }

/-- A concrete event with an unsupported release flag. -/
def wBadEvent : Event :=
  ⟨"XYZ", some ⟨0, some 0⟩⟩

/-- A concrete daily bar one day after the session day of wRecord. -/
def wDaily : DailyBar :=
  ⟨1, 100, 102, 98, 101, 1000⟩

/-- A client whose daily-bar query returns the single bar wDaily. -/
def wClient2 : PolygonIntradayClient :=
  ⟨fun _ _ _ => [], fun _ _ => none, fun _ _ _ => [wDaily]⟩

/-- A concrete first intraday bar. -/
def wBarA : Bar :=
  ⟨100, 108, 95, 102⟩

/-- A concrete last intraday bar. -/
def wBarB : Bar :=
  ⟨101, 110, 96, 105⟩

section Helpers

/-- A left fold of max over a list is the seed or a member, dominates the
seed, and dominates every member. -/
theorem foldl_max_spec {α : Type} [LinearOrder α] (l : List α) (init : α) :
    (l.foldl max init = init ∨ l.foldl max init ∈ l) ∧
      init ≤ l.foldl max init ∧ ∀ x ∈ l, x ≤ l.foldl max init := by
  induction l generalizing init with
  | nil => simp
  | cons a t ih =>
    obtain ⟨h1, h2, h3⟩ := ih (max init a)
    refine ⟨?_, ?_, ?_⟩
    · rcases h1 with h | h
      · rcases max_choice init a with hm | hm
        · refine Or.inl ?_
          rw [List.foldl_cons, h, hm]
        · refine Or.inr ?_
          rw [List.foldl_cons, h, hm]
          exact List.mem_cons_self a t
      · refine Or.inr ?_
        rw [List.foldl_cons]
        exact List.mem_cons_of_mem a h
    · exact le_trans (le_max_left init a) (by simpa [List.foldl_cons] using h2)
    · intro x hx
      rcases List.mem_cons.mp hx with rfl | hx
      · exact le_trans (le_max_right init x) (by simpa [List.foldl_cons] using h2)
      · simpa [List.foldl_cons] using h3 x hx

/-- A left fold of min over a list is the seed or a member, is below the
seed, and is below every member. -/
theorem foldl_min_spec {α : Type} [LinearOrder α] (l : List α) (init : α) :
    (l.foldl min init = init ∨ l.foldl min init ∈ l) ∧
      l.foldl min init ≤ init ∧ ∀ x ∈ l, l.foldl min init ≤ x := by
  induction l generalizing init with
  | nil => simp
  | cons a t ih =>
    obtain ⟨h1, h2, h3⟩ := ih (min init a)
    refine ⟨?_, ?_, ?_⟩
    · rcases h1 with h | h
      · rcases min_choice init a with hm | hm
        · refine Or.inl ?_
          rw [List.foldl_cons, h, hm]
        · refine Or.inr ?_
          rw [List.foldl_cons, h, hm]
          exact List.mem_cons_self a t
      · refine Or.inr ?_
        rw [List.foldl_cons]
        exact List.mem_cons_of_mem a h
    · exact le_trans (by simpa [List.foldl_cons] using h2) (min_le_left init a)
    · intro x hx
      rcases List.mem_cons.mp hx with rfl | hx
      · exact le_trans (by simpa [List.foldl_cons] using h2) (min_le_right init x)
      · simpa [List.foldl_cons] using h3 x hx

/-- On a non-empty list, listMax is a member. -/
theorem listMax_mem {α : Type} [LinearOrder α] [Inhabited α] (l : List α)
    (h : l ≠ []) : listMax l ∈ l := by
  rcases (foldl_max_spec l l.headI).1 with h1 | h1
  · rw [listMax, h1]
    cases l with
    | nil => exact absurd rfl h
    | cons a t => exact List.mem_cons_self a t
  · exact h1

/-- Every member of a list is at most listMax. -/
theorem le_listMax {α : Type} [LinearOrder α] [Inhabited α] (l : List α)
    (x : α) (hx : x ∈ l) : x ≤ listMax l :=
  (foldl_max_spec l l.headI).2.2 x hx

/-- On a non-empty list, listMin is a member. -/
theorem listMin_mem {α : Type} [LinearOrder α] [Inhabited α] (l : List α)
    (h : l ≠ []) : listMin l ∈ l := by
  rcases (foldl_min_spec l l.headI).1 with h1 | h1
  · rw [listMin, h1]
    cases l with
    | nil => exact absurd rfl h
    | cons a t => exact List.mem_cons_self a t
  · exact h1

/-- listMin is at most every member of the list. -/
theorem listMin_le {α : Type} [LinearOrder α] [Inhabited α] (l : List α)
    (x : α) (hx : x ∈ l) : listMin l ≤ x :=
  (foldl_min_spec l l.headI).2.2 x hx

/-- getD with default 0 on a list of non-negative rationals is non-negative. -/
theorem getD_nonneg (l : List ℚ) (h : ∀ x ∈ l, 0 ≤ x) (i : ℕ) :
    0 ≤ l.getD i 0 := by
  induction l generalizing i with
  | nil => simp [List.getD]
  | cons a t ih =>
    cases i with
    | zero => simpa using h a (List.mem_cons_self a t)
    | succ j =>
      simpa using ih (fun x hx => h x (List.mem_cons_of_mem a hx)) j

/-- The median of a list of non-negative rationals is non-negative. -/
theorem median_nonneg (l : List ℚ) (h : ∀ x ∈ l, 0 ≤ x) : 0 ≤ median l := by
  have hs : ∀ x ∈ l.insertionSort (· ≤ ·), 0 ≤ x := fun x hx =>
    h x ((List.perm_insertionSort _ l).mem_iff.mp hx)
  unfold median
  split_ifs
  · exact le_refl 0
  · exact getD_nonneg _ hs _
  · have h1 := getD_nonneg _ hs (l.length / 2 - 1)
    have h2 := getD_nonneg _ hs (l.length / 2)
    positivity

/-- filterMap does not shorten a list on which the function is total. -/
theorem length_filterMap_of_isSome {α β : Type} (f : α → Option β) (l : List α)
    (h : ∀ x ∈ l, (f x).isSome) : (l.filterMap f).length = l.length := by
  induction l with
  | nil => rfl
  | cons a t ih =>
    have ha := h a (List.mem_cons_self a t)
    rcases Option.isSome_iff_exists.mp ha with ⟨b, hb⟩
    simp [List.filterMap_cons, hb,
      ih (fun x hx => h x (List.mem_cons_of_mem a hx))]

/-- Every filtered record has a present oc_ret, so ocsOf has exactly one
value per filtered record. -/
theorem length_ocsOf (rows : List ReactionRecord) :
    (ocsOf rows).length = (validOf rows).length := by
  refine length_filterMap_of_isSome _ _ ?_
  intro r hr
  simpa using List.of_mem_filter hr

end Helpers

section ScorerLemmas

/-- When at least one filtered record remains, score returns the computed
components: hit rate, big-move rate, boost, weighted total, and the count
of filtered records. -/
theorem score_spec (s : ConsistencyScorer) (ticker : String)
    (rows : List ReactionRecord) (hvalid : validOf rows ≠ []) :
    s.score ticker rows =
      ⟨hitMainDir rows, bigMoveHit rows,
        boostOf rows (s.median_abs_oc_non_earnings ticker (validOf rows)),
        0.5 * hitMainDir rows + 0.3 * bigMoveHit rows +
          0.2 * boostOf rows (s.median_abs_oc_non_earnings ticker (validOf rows)),
        (validOf rows).length⟩ := by
  have hrows : ¬ rows = [] := by
    intro h
    apply hvalid
    rw [validOf, h]
    rfl
  have hlen : ¬ ((rows.filter (fun r => r.oc_ret.isSome)).length = 0) := by
    simpa [validOf, List.length_eq_zero] using hvalid
  simp only [ConsistencyScorer.score, if_neg hrows, if_neg hlen, validOf, ocsOf,
    hitMainDir, bigMoveHit, boostOf, earningsMedianAbs, signMean, meanOc]

/-- When no filtered record remains, score returns the zero record. -/
theorem score_eq_zero (s : ConsistencyScorer) (ticker : String)
    (rows : List ReactionRecord) (h : validOf rows = []) :
    s.score ticker rows = zeroScore := by
  by_cases hrows : rows = []
  · simp [ConsistencyScorer.score, hrows]
  · have hlen : (rows.filter (fun r => r.oc_ret.isSome)).length = 0 := by
      rw [validOf] at h
      rw [h]
      rfl
    simp [ConsistencyScorer.score, if_neg hrows, hlen]

/-- A table whose every row misses oc_ret filters to nothing. -/
theorem validOf_eq_nil (rows : List ReactionRecord)
    (h : ∀ r ∈ rows, r.oc_ret = none) : validOf rows = [] := by
  rw [validOf, List.filter_eq_nil_iff]
  intro r hr
  simp [h r hr]

end ScorerLemmas

/-- C8: when no input record has a present oc_ret (in particular on the
empty table) the scorer returns the all-zero record with events_count 0,
and no error is raised (the embedding is a total function). -/
theorem c8_zero_record (s : ConsistencyScorer) (ticker : String)
    (rows : List ReactionRecord) (h : ∀ r ∈ rows, r.oc_ret = none) :
    s.score ticker rows = zeroScore := by
  exact score_eq_zero s ticker rows (validOf_eq_nil rows h)

/-- C8 witness: a one-row table whose oc_ret is missing scores as the zero
record. -/
theorem c8_zero_record_witness :
    (∀ r ∈ [{ wRecord with oc_ret := none }], r.oc_ret = none) ∧
      (mkScorer wClient).score "T" [{ wRecord with oc_ret := none }] = zeroScore :=
  ⟨by decide, c8_zero_record (mkScorer wClient) "T"
    [{ wRecord with oc_ret := none }] (by decide)⟩

/-- C1: for a non-empty set of filtered records, big_move_hit is the
fraction of filtered records with absolute oc_ret at least 0.02, boost is
earnings_median_abs over non_earnings_median_abs when the baseline median
is strictly positive and 0 otherwise, and the composite score is exactly
0.5 * hit_main_dir + 0.3 * big_move_hit + 0.2 * boost. -/
theorem c1_score_components (s : ConsistencyScorer) (ticker : String)
    (rows : List ReactionRecord) (hvalid : validOf rows ≠ []) :
    (s.score ticker rows).big_move_hit
        = (((ocsOf rows).filter (fun x => |x| ≥ 0.02)).length : ℚ) /
          ((ocsOf rows).length : ℚ)
    ∧ (0 < s.median_abs_oc_non_earnings ticker (validOf rows) →
        (s.score ticker rows).boost
          = earningsMedianAbs rows /
            s.median_abs_oc_non_earnings ticker (validOf rows))
    ∧ (¬ 0 < s.median_abs_oc_non_earnings ticker (validOf rows) →
        (s.score ticker rows).boost = 0)
    ∧ (s.score ticker rows).score
        = 0.5 * (s.score ticker rows).hit_main_dir
          + 0.3 * (s.score ticker rows).big_move_hit
          + 0.2 * (s.score ticker rows).boost := by
  rw [score_spec s ticker rows hvalid]
  refine ⟨rfl, ?_, ?_, rfl⟩
  · intro h
    simp only [boostOf, if_pos h]
  · intro h
    simp only [boostOf, if_neg h]

/-- C1 witness: the component formulas evaluated on a concrete one-row
table with oc_ret 1/10 under the no-data client. -/
theorem c1_score_components_witness :
    validOf [wRecord] ≠ [] ∧
    (((mkScorer wClient).score "T" [wRecord]).big_move_hit
        = (((ocsOf [wRecord]).filter (fun x => |x| ≥ 0.02)).length : ℚ) /
          ((ocsOf [wRecord]).length : ℚ)
    ∧ (0 < (mkScorer wClient).median_abs_oc_non_earnings "T" (validOf [wRecord]) →
        ((mkScorer wClient).score "T" [wRecord]).boost
          = earningsMedianAbs [wRecord] /
            (mkScorer wClient).median_abs_oc_non_earnings "T" (validOf [wRecord]))
    ∧ (¬ 0 < (mkScorer wClient).median_abs_oc_non_earnings "T" (validOf [wRecord]) →
        ((mkScorer wClient).score "T" [wRecord]).boost = 0)
    ∧ ((mkScorer wClient).score "T" [wRecord]).score
        = 0.5 * ((mkScorer wClient).score "T" [wRecord]).hit_main_dir
          + 0.3 * ((mkScorer wClient).score "T" [wRecord]).big_move_hit
          + 0.2 * ((mkScorer wClient).score "T" [wRecord]).boost) :=
  ⟨by decide, c1_score_components (mkScorer wClient) "T" [wRecord] (by decide)⟩

/-- C2: sign_mean is zero exactly when the mean oc_ret is zero; the hit
rate is 0 when sign_mean is 0 and otherwise the fraction of filtered
records whose oc_ret sign matches sign_mean, a zero oc_ret matching
neither sign; all-positive oc_ret values give hit rate 1, and an equal
split of positives and negatives with zero mean gives hit rate 0. -/
theorem c2_hit_main_dir (s : ConsistencyScorer) (ticker : String)
    (rows : List ReactionRecord) (hvalid : validOf rows ≠ []) :
    (signMean rows = 0 ↔ meanOc rows = 0)
    ∧ (signMean rows = 0 → (s.score ticker rows).hit_main_dir = 0)
    ∧ (signMean rows ≠ 0 →
        (s.score ticker rows).hit_main_dir
          = (((ocsOf rows).filter (fun x => sgn x = signMean rows)).length : ℚ)
            / ((ocsOf rows).length : ℚ))
    ∧ sgn 0 = 0
    ∧ ((∀ x ∈ ocsOf rows, 0 < x) → (s.score ticker rows).hit_main_dir = 1)
    ∧ ((((ocsOf rows).filter (fun x => 0 < x)).length
          = ((ocsOf rows).filter (fun x => x < 0)).length ∧ meanOc rows = 0) →
        (s.score ticker rows).hit_main_dir = 0) := by
  rw [score_spec s ticker rows hvalid]
  have hiff : signMean rows = 0 ↔ meanOc rows = 0 := by
    unfold signMean
    split_ifs with h1 h2
    · constructor
      · intro h
        exact absurd h one_ne_zero
      · intro h
        rw [h] at h1
        exact absurd h1 (lt_irrefl 0)
    · constructor
      · intro h
        exact absurd h (by decide)
      · intro h
        rw [h] at h2
        exact absurd h2 (lt_irrefl 0)
    · exact ⟨fun _ => le_antisymm (not_lt.mp h1) (not_lt.mp h2), fun _ => rfl⟩
  refine ⟨hiff, ?_, ?_, rfl, ?_, ?_⟩
  · intro h
    simp only [hitMainDir, if_pos h]
  · intro h
    simp only [hitMainDir, if_neg h]
  · intro hpos
    have hne : ocsOf rows ≠ [] := by
      intro h
      apply hvalid
      have := length_ocsOf rows
      rw [h] at this
      exact List.length_eq_zero.mp this.symm
    have hsum : 0 < (ocsOf rows).sum := List.sum_pos _ hpos hne
    have hlen : (0 : ℚ) < ((ocsOf rows).length : ℚ) := by
      have := List.length_pos.mpr hne
      exact_mod_cast this
    have hmean : 0 < meanOc rows := div_pos hsum hlen
    have hsm : signMean rows = 1 := by
      unfold signMean
      rw [if_pos hmean]
    have hfilter : (ocsOf rows).filter (fun x => sgn x = (1 : ℤ))
        = ocsOf rows := by
      rw [List.filter_eq_self]
      intro x hx
      have hx1 : sgn x = 1 := by
        unfold sgn
        rw [if_pos (hpos x hx)]
      simp [hx1]
    simp only [hitMainDir, hsm]
    rw [if_neg one_ne_zero, hfilter]
    exact div_self (ne_of_gt hlen)
  · rintro ⟨-, hmean⟩
    simp only [hitMainDir, if_pos (hiff.mpr hmean)]

/-- C2 witness: the sign and hit-rate properties evaluated on a concrete
one-row table with oc_ret 1/10 under the no-data client. -/
theorem c2_hit_main_dir_witness :
    validOf [wRecord] ≠ [] ∧
    ((signMean [wRecord] = 0 ↔ meanOc [wRecord] = 0)
    ∧ (signMean [wRecord] = 0 →
        ((mkScorer wClient).score "T" [wRecord]).hit_main_dir = 0)
    ∧ (signMean [wRecord] ≠ 0 →
        ((mkScorer wClient).score "T" [wRecord]).hit_main_dir
          = (((ocsOf [wRecord]).filter (fun x => sgn x = signMean [wRecord])).length : ℚ)
            / ((ocsOf [wRecord]).length : ℚ))
    ∧ sgn 0 = 0
    ∧ ((∀ x ∈ ocsOf [wRecord], 0 < x) →
        ((mkScorer wClient).score "T" [wRecord]).hit_main_dir = 1)
    ∧ ((((ocsOf [wRecord]).filter (fun x => 0 < x)).length
          = ((ocsOf [wRecord]).filter (fun x => x < 0)).length
            ∧ meanOc [wRecord] = 0) →
        ((mkScorer wClient).score "T" [wRecord]).hit_main_dir = 0)) :=
  ⟨by decide, c2_hit_main_dir (mkScorer wClient) "T" [wRecord] (by decide)⟩

/-- C10: on every input table and baseline series the score record has hit
rates in [0, 1], a non-negative boost and composite score, a non-negative
event count, and events_count is 0 exactly when no record has a present
oc_ret. -/
theorem c10_score_invariants (s : ConsistencyScorer) (ticker : String)
    (rows : List ReactionRecord) :
    0 ≤ (s.score ticker rows).hit_main_dir
    ∧ (s.score ticker rows).hit_main_dir ≤ 1
    ∧ 0 ≤ (s.score ticker rows).big_move_hit
    ∧ (s.score ticker rows).big_move_hit ≤ 1
    ∧ 0 ≤ (s.score ticker rows).boost
    ∧ 0 ≤ (s.score ticker rows).score
    ∧ 0 ≤ (s.score ticker rows).events_count
    ∧ ((s.score ticker rows).events_count = 0 ↔ ∀ r ∈ rows, r.oc_ret = none) := by
  by_cases hvalid : validOf rows = []
  · rw [score_eq_zero s ticker rows hvalid]
    refine ⟨le_refl 0, by norm_num [zeroScore], le_refl 0, by norm_num [zeroScore],
      le_refl 0, le_refl 0, Nat.zero_le 0, ?_⟩
    constructor
    · intro _ r hr
      have := List.filter_eq_nil_iff.mp hvalid r hr
      simpa using this
    · intro _
      rfl
  · rw [score_spec s ticker rows hvalid]
    have hlenpos : (0 : ℚ) < ((ocsOf rows).length : ℚ) := by
      have h1 : (ocsOf rows).length = (validOf rows).length := length_ocsOf rows
      have h2 : 0 < (validOf rows).length :=
        List.length_pos.mpr hvalid
      rw [h1]
      exact_mod_cast h2
    have frac : ∀ l' : List ℚ, l'.length ≤ (ocsOf rows).length →
        (0 : ℚ) ≤ (l'.length : ℚ) / ((ocsOf rows).length : ℚ) ∧
          (l'.length : ℚ) / ((ocsOf rows).length : ℚ) ≤ 1 := by
      intro l' hl
      exact ⟨div_nonneg (Nat.cast_nonneg _) (le_of_lt hlenpos),
        (div_le_one hlenpos).mpr (by exact_mod_cast hl)⟩
    have h_hit : 0 ≤ hitMainDir rows ∧ hitMainDir rows ≤ 1 := by
      unfold hitMainDir
      split_ifs
      · exact ⟨le_refl 0, zero_le_one⟩
      · exact frac _ (List.length_filter_le _ _)
    have h_big : 0 ≤ bigMoveHit rows ∧ bigMoveHit rows ≤ 1 := by
      unfold bigMoveHit
      exact frac _ (List.length_filter_le _ _)
    have h_boost : 0 ≤ boostOf rows
        (s.median_abs_oc_non_earnings ticker (validOf rows)) := by
      unfold boostOf
      split_ifs with h
      · refine div_nonneg ?_ (le_of_lt h)
        refine median_nonneg _ ?_
        intro x hx
        obtain ⟨y, -, rfl⟩ := List.mem_map.mp hx
        exact abs_nonneg y
      · exact le_refl 0
    have h_total : 0 ≤ 0.5 * hitMainDir rows + 0.3 * bigMoveHit rows +
        0.2 * boostOf rows (s.median_abs_oc_non_earnings ticker (validOf rows)) := by
      have n1 : (0 : ℚ) ≤ 0.5 * hitMainDir rows :=
        mul_nonneg (by norm_num) h_hit.1
      have n2 : (0 : ℚ) ≤ 0.3 * bigMoveHit rows :=
        mul_nonneg (by norm_num) h_big.1
      have n3 : (0 : ℚ) ≤ 0.2 * boostOf rows
          (s.median_abs_oc_non_earnings ticker (validOf rows)) :=
        mul_nonneg (by norm_num) h_boost
      linarith
    refine ⟨h_hit.1, h_hit.2, h_big.1, h_big.2, h_boost, h_total,
      Nat.zero_le _, ?_⟩
    constructor
    · intro h
      exact absurd (List.length_eq_zero.mp h) hvalid
    · intro h
      exact absurd (validOf_eq_nil rows h) hvalid

/-- C3: on a non-empty bar series the reaction metrics take the open of
the first bar, the close of the last bar, the maximum high and the minimum
low; gap_ret is open over previous close minus one exactly when the
previous close is present and non-zero and absent otherwise; oc_ret and
range_pct are present exactly when the open price is non-zero and absent
(not zero) otherwise. -/
theorem c3_reaction_metrics (bars : List Bar) (prev_close : Option ℚ)
    (b₀ bl : Bar) (hh : bars.head? = some b₀) (hl : bars.getLast? = some bl) :
    (computeReaction bars prev_close).openPrice = b₀.op
    ∧ (computeReaction bars prev_close).closePrice = bl.cl
    ∧ (computeReaction bars prev_close).highPrice ∈ bars.map Bar.hi
    ∧ (∀ b ∈ bars, b.hi ≤ (computeReaction bars prev_close).highPrice)
    ∧ (computeReaction bars prev_close).lowPrice ∈ bars.map Bar.lo
    ∧ (∀ b ∈ bars, (computeReaction bars prev_close).lowPrice ≤ b.lo)
    ∧ (∀ c : ℚ, prev_close = some c → c ≠ 0 →
        (computeReaction bars prev_close).gap_ret = some (b₀.op / c - 1))
    ∧ (prev_close = none ∨ prev_close = some 0 →
        (computeReaction bars prev_close).gap_ret = none)
    ∧ (b₀.op ≠ 0 →
        (computeReaction bars prev_close).oc_ret = some (bl.cl / b₀.op - 1)
        ∧ (computeReaction bars prev_close).range_pct
          = some (((computeReaction bars prev_close).highPrice
            - (computeReaction bars prev_close).lowPrice) / b₀.op))
    ∧ (b₀.op = 0 →
        (computeReaction bars prev_close).oc_ret = none
        ∧ (computeReaction bars prev_close).range_pct = none) := by
  have hne : bars ≠ [] := by
    intro h
    rw [h] at hh
    cases hh
  have hopen : (computeReaction bars prev_close).openPrice = b₀.op := by
    cases bars with
    | nil => cases hh
    | cons b t =>
      have hb : b = b₀ := by
        simpa using hh
      simp [computeReaction, List.headI, hb]
  have hclose : (computeReaction bars prev_close).closePrice = bl.cl := by
    show (bars.getLastD default).cl = bl.cl
    rw [List.getLastD_eq_getLast?, hl]
    rfl
  have hmapne : bars.map Bar.hi ≠ [] := by
    simpa using hne
  have hmapne2 : bars.map Bar.lo ≠ [] := by
    simpa using hne
  refine ⟨hopen, hclose, listMax_mem _ hmapne, ?_, listMin_mem _ hmapne2, ?_, ?_,
    ?_, ?_, ?_⟩
  · intro b hb
    exact le_listMax _ _ (List.mem_map_of_mem Bar.hi hb)
  · intro b hb
    exact listMin_le _ _ (List.mem_map_of_mem Bar.lo hb)
  · intro c hc hc0
    subst hc
    have hop : bars.headI.op = b₀.op := hopen
    show (if c ≠ 0 then some (bars.headI.op / c - 1) else none)
      = some (b₀.op / c - 1)
    rw [if_pos hc0, hop]
  · intro hc
    rcases hc with hc | hc <;> subst hc
    · rfl
    · show (if (0 : ℚ) ≠ 0 then some (bars.headI.op / 0 - 1) else none) = none
      simp
  · intro h0
    have hop : bars.headI.op = b₀.op := hopen
    constructor
    · show (if bars.headI.op ≠ 0
          then some ((bars.getLastD default).cl / bars.headI.op - 1) else none)
        = some (bl.cl / b₀.op - 1)
      rw [hop, if_pos h0]
      have : (bars.getLastD default).cl = bl.cl := hclose
      rw [this]
    · show (if bars.headI.op ≠ 0
          then some ((listMax (bars.map Bar.hi) - listMin (bars.map Bar.lo)) /
            bars.headI.op) else none)
        = some (((computeReaction bars prev_close).highPrice
          - (computeReaction bars prev_close).lowPrice) / b₀.op)
      rw [hop, if_pos h0]
      rfl
  · intro h0
    have hop : bars.headI.op = b₀.op := hopen
    constructor
    · show (if bars.headI.op ≠ 0
          then some ((bars.getLastD default).cl / bars.headI.op - 1) else none)
        = none
      rw [hop]
      simp [h0]
    · show (if bars.headI.op ≠ 0
          then some ((listMax (bars.map Bar.hi) - listMin (bars.map Bar.lo)) /
            bars.headI.op) else none)
        = none
      rw [hop]
      simp [h0]

/-- C3 witness: the metric formulas evaluated on a concrete two-bar series
with previous close 98. -/
theorem c3_reaction_metrics_witness :
    ([wBarA, wBarB].head? = some wBarA)
    ∧ ([wBarA, wBarB].getLast? = some wBarB)
    ∧ (computeReaction [wBarA, wBarB] (some 98)).openPrice = wBarA.op
    ∧ (computeReaction [wBarA, wBarB] (some 98)).closePrice = wBarB.cl
    ∧ (computeReaction [wBarA, wBarB] (some 98)).gap_ret = some (wBarA.op / 98 - 1)
    ∧ (computeReaction [wBarA, wBarB] (some 98)).oc_ret
        = some (wBarB.cl / wBarA.op - 1) := by
  have h := c3_reaction_metrics [wBarA, wBarB] (some 98) wBarA wBarB
    (by decide) (by decide)
  exact ⟨by decide, by decide, h.1, h.2.1,
    h.2.2.2.2.2.2.1 98 rfl (by norm_num),
    (h.2.2.2.2.2.2.2.2.1 (by decide)).1⟩

section SessionLemmas

/-- Unfolding lemma for the weekend-skip loop at zero fuel. -/
theorem skipWeekendFwd_zero (d : ℤ) : skipWeekendFwd 0 d = d :=
  rfl

/-- Unfolding lemma for one iteration of the weekend-skip loop. -/
theorem skipWeekendFwd_succ (n : ℕ) (d : ℤ) :
    skipWeekendFwd (n + 1) d =
      if 5 ≤ weekday d then skipWeekendFwd n (d + 1) else d :=
  rfl

/-- Closed form of next_trading_day: one day ahead, or three from a Friday
(weekday of the next day 5 means Saturday), or two from a Saturday. -/
theorem next_trading_day_eq (d : ℤ) :
    next_trading_day d =
      if weekday (d + 1) = 5 then d + 3
      else if weekday (d + 1) = 6 then d + 2
      else d + 1 := by
  have h7 : (7 : ℕ) = 6 + 1 := rfl
  have h6 : (6 : ℕ) = 5 + 1 := rfl
  have h5 : (5 : ℕ) = 4 + 1 := rfl
  unfold next_trading_day
  rw [h7, skipWeekendFwd_succ]
  by_cases h1 : 5 ≤ weekday (d + 1)
  · rw [if_pos h1, h6, skipWeekendFwd_succ]
    by_cases h2 : 5 ≤ weekday (d + 1 + 1)
    · rw [if_pos h2, h5, skipWeekendFwd_succ]
      have h3 : ¬ 5 ≤ weekday (d + 1 + 1 + 1) := by
        unfold weekday at *
        omega
      rw [if_neg h3]
      unfold weekday at *
      split_ifs <;> omega
    · rw [if_neg h2]
      unfold weekday at *
      split_ifs <;> omega
  · rw [if_neg h1]
    unfold weekday at *
    split_ifs <;> omega

end SessionLemmas

/-- C4: for any release flag that upper-cases to AMC, the resolved session
day is the next trading day after the normalized announcement calendar
date: strictly later, never a Saturday (weekday 5) or Sunday (weekday 6),
and the earliest such weekday. -/
theorem c4_amc_session_day (zone : ℤ → ℤ) (t : PyTimestamp) (flag : String)
    (hflag : strUpper flag = "AMC") (d : ℤ)
    (hd : d = dateOf (normalize_timestamp zone t)) :
    get_session_day zone t flag = some (next_trading_day d)
    ∧ d < next_trading_day d
    ∧ weekday (next_trading_day d) ≠ 5
    ∧ weekday (next_trading_day d) ≠ 6
    ∧ ∀ e : ℤ, d < e → weekday e ≠ 5 → weekday e ≠ 6 → next_trading_day d ≤ e := by
  have he := next_trading_day_eq d
  refine ⟨?_, ?_, ?_, ?_, ?_⟩
  · unfold get_session_day
    rw [hflag, if_pos (Or.inl rfl), if_pos rfl, hd]
  · rw [he]
    split_ifs <;> omega
  · rw [he]
    unfold weekday at *
    split_ifs <;> omega
  · rw [he]
    unfold weekday at *
    split_ifs <;> omega
  · intro e h1 h2 h3
    rw [he]
    unfold weekday at *
    split_ifs <;> omega

/-- C4 witness: a zone-naive timestamp at minute 600 with offset function
constantly -300 resolves under AMC to day 1 (a Friday), with all the
next-trading-day properties at day 0. -/
theorem c4_amc_session_day_witness :
    (strUpper "amc" = "AMC")
    ∧ ((0 : ℤ) = dateOf (normalize_timestamp (fun _ => -300) ⟨600, none⟩))
    ∧ (get_session_day (fun _ => -300) ⟨600, none⟩ "amc"
        = some (next_trading_day 0)
      ∧ (0 : ℤ) < next_trading_day 0
      ∧ weekday (next_trading_day 0) ≠ 5
      ∧ weekday (next_trading_day 0) ≠ 6
      ∧ ∀ e : ℤ, 0 < e → weekday e ≠ 5 → weekday e ≠ 6 →
          next_trading_day 0 ≤ e) :=
  ⟨by decide, by decide,
    c4_amc_session_day (fun _ => -300) ⟨600, none⟩ "amc" (by decide) 0 (by decide)⟩

/-- C5: for any release flag that upper-cases to BMO, the resolved session
day is the calendar date of the normalized announcement timestamp; a
zone-naive timestamp is treated as UTC and shifted by the exchange offset
before the calendar date is taken, and a zone-aware timestamp is first
brought back to UTC. -/
theorem c5_bmo_session_day (zone : ℤ → ℤ) (t : PyTimestamp) (flag : String)
    (hflag : strUpper flag = "BMO") :
    get_session_day zone t flag = some (dateOf (normalize_timestamp zone t))
    ∧ (t.offset = none →
        get_session_day zone t flag
          = some (Int.fdiv (t.wall + zone t.wall) 1440))
    ∧ (∀ off : ℤ, t.offset = some off →
        get_session_day zone t flag
          = some (Int.fdiv (t.wall - off + zone (t.wall - off)) 1440)) := by
  have h1 : get_session_day zone t flag
      = some (dateOf (normalize_timestamp zone t)) := by
    unfold get_session_day
    rw [hflag, if_pos (Or.inr rfl), if_neg (by decide)]
  refine ⟨h1, ?_, ?_⟩
  · intro hoff
    rw [h1]
    simp [normalize_timestamp, hoff, dateOf]
  · intro off hoff
    rw [h1]
    simp [normalize_timestamp, hoff, dateOf]

/-- C5 witness: a zone-naive timestamp at minute 600 with offset function
constantly -300 resolves under BMO to the calendar date of minute 300,
day 0. -/
theorem c5_bmo_session_day_witness :
    (strUpper "bmo" = "BMO")
    ∧ (get_session_day (fun _ => -300) ⟨600, none⟩ "bmo"
        = some (dateOf (normalize_timestamp (fun _ => -300) ⟨600, none⟩))
      ∧ ((⟨600, none⟩ : PyTimestamp).offset = none →
          get_session_day (fun _ => -300) ⟨600, none⟩ "bmo"
            = some (Int.fdiv (600 + (fun (_ : ℤ) => (-300 : ℤ)) 600) 1440))
      ∧ (∀ off : ℤ, (⟨600, none⟩ : PyTimestamp).offset = some off →
          get_session_day (fun _ => -300) ⟨600, none⟩ "bmo"
            = some (Int.fdiv (600 - off + (fun (_ : ℤ) => (-300 : ℤ)) (600 - off))
              1440))) :=
  ⟨by decide, c5_bmo_session_day (fun _ => -300) ⟨600, none⟩ "bmo" (by decide)⟩

/-- C9: an event whose upper-cased release flag is neither AMC nor BMO, or
whose announcement timestamp is missing, yields no reaction record, raises
no error (the embedding is total), and leaves the records of the remaining
events unchanged wherever it sits in the list. -/
theorem c9_skip_invalid_events (zone : ℤ → ℤ) (client : PolygonIntradayClient)
    (ticker : String) (e : Event)
    (h : (strUpper e.release_flag ≠ "AMC" ∧ strUpper e.release_flag ≠ "BMO")
      ∨ e.earnings_date = none) :
    processEvent zone client ticker e = none
    ∧ (∀ l₁ l₂ : List Event,
        (l₁ ++ e :: l₂).filterMap (processEvent zone client ticker)
          = (l₁ ++ l₂).filterMap (processEvent zone client ticker))
    ∧ analyze_ticker zone client ticker [e] = [] := by
  have hnone : processEvent zone client ticker e = none := by
    rcases h with ⟨h1, h2⟩ | h1
    · unfold processEvent
      rw [if_neg (not_or.mpr ⟨h1, h2⟩)]
    · unfold processEvent
      rw [h1]
      by_cases hc : strUpper e.release_flag = "AMC" ∨ strUpper e.release_flag = "BMO"
      · simp only [if_pos hc]
      · simp only [if_neg hc]
  refine ⟨hnone, ?_, ?_⟩
  · intro l₁ l₂
    simp [List.filterMap_append, List.filterMap_cons, hnone]
  · unfold analyze_ticker
    rw [if_neg (List.cons_ne_nil e [])]
    have hsort : ([e] : List Event).insertionSort
        (fun a b => eventBefore a b = true) = [e] := rfl
    rw [hsort]
    simp [List.filterMap_cons, hnone]

/-- C9 witness: a concrete event with release flag XYZ is skipped and does
not disturb its neighbours. -/
theorem c9_skip_invalid_events_witness :
    ((strUpper wBadEvent.release_flag ≠ "AMC"
        ∧ strUpper wBadEvent.release_flag ≠ "BMO")
      ∨ wBadEvent.earnings_date = none)
    ∧ (processEvent (fun _ => -300) wClient "T" wBadEvent = none
    ∧ (∀ l₁ l₂ : List Event,
        (l₁ ++ wBadEvent :: l₂).filterMap (processEvent (fun _ => -300) wClient "T")
          = (l₁ ++ l₂).filterMap (processEvent (fun _ => -300) wClient "T"))
    ∧ analyze_ticker (fun _ => -300) wClient "T" [wBadEvent] = []) :=
  ⟨by decide,
    c9_skip_invalid_events (fun _ => -300) wClient "T" wBadEvent (by decide)⟩

/-- C6: with the default 120-day lookback and sample size 10, the baseline
median is computed from the daily bars of the window ending at the latest
session day: bars on earnings session days are dropped, at most the 10 most
recent remaining bars are kept (date-descending sort then truncation), and
the result is the median of their absolute open-close returns; an empty
daily series or an empty candidate set yields 0 rather than an error. -/
theorem c6_baseline_median (client : PolygonIntradayClient) (ticker : String)
    (rows : List ReactionRecord) (daily candidates : List DailyBar)
    (hne : rows.map ReactionRecord.session_day ≠ [])
    (hdaily : daily = client.get_daily_bars ticker
      (listMax (rows.map ReactionRecord.session_day) - 120)
      (listMax (rows.map ReactionRecord.session_day)))
    (hcands : candidates = ((daily.filter
      (fun b => b.date ∉ rows.map ReactionRecord.session_day)).insertionSort
        dateDesc).take 10) :
    (daily = [] →
      (mkScorer client).median_abs_oc_non_earnings ticker rows = 0)
    ∧ (candidates = [] →
      (mkScorer client).median_abs_oc_non_earnings ticker rows = 0)
    ∧ (daily ≠ [] → candidates ≠ [] →
      (mkScorer client).median_abs_oc_non_earnings ticker rows
        = median (candidates.map (fun b => |b.cl / b.op - 1|)))
    ∧ candidates.length ≤ 10
    ∧ (∀ b ∈ candidates,
        b ∈ daily ∧ b.date ∉ rows.map ReactionRecord.session_day)
    ∧ (∀ b ∈ candidates, ∀ b' ∈ ((daily.filter
        (fun b => b.date ∉ rows.map ReactionRecord.session_day)).insertionSort
          dateDesc).drop 10, b'.date ≤ b.date) := by
  have hR : (mkScorer client).median_abs_oc_non_earnings ticker rows
      = if daily = [] then 0
        else if candidates = [] then 0
        else median (candidates.map (fun b => |b.cl / b.op - 1|)) := by
    unfold ConsistencyScorer.median_abs_oc_non_earnings
    rw [if_neg hne]
    simp only [mkScorer]
    rw [← hdaily, ← hcands]
  have hsorted : List.Sorted dateDesc ((daily.filter
      (fun b => b.date ∉ rows.map ReactionRecord.session_day)).insertionSort
        dateDesc) :=
    List.sorted_insertionSort dateDesc _
  refine ⟨?_, ?_, ?_, ?_, ?_, ?_⟩
  · intro h
    rw [hR, if_pos h]
  · intro h
    rw [hR]
    split_ifs <;> rfl
  · intro h1 h2
    rw [hR, if_neg h1, if_neg h2]
  · rw [hcands]
    exact List.length_take_le 10 _
  · intro b hb
    have hmem : b ∈ (daily.filter
        (fun b => b.date ∉ rows.map ReactionRecord.session_day)).insertionSort
          dateDesc := List.take_subset 10 _ (hcands ▸ hb)
    have hmem2 : b ∈ daily.filter
        (fun b => b.date ∉ rows.map ReactionRecord.session_day) :=
      (List.mem_insertionSort dateDesc).mp hmem
    refine ⟨List.mem_of_mem_filter hmem2, ?_⟩
    have := List.of_mem_filter hmem2
    simpa using this
  · intro b hb b' hb'
    have hpair := hsorted
    rw [List.Sorted, ← List.take_append_drop 10 ((daily.filter
      (fun b => b.date ∉ rows.map ReactionRecord.session_day)).insertionSort
        dateDesc), List.pairwise_append] at hpair
    exact hpair.2.2 b (hcands ▸ hb) b' hb'

/-- C6 witness: the baseline characterization evaluated on a one-row table
with session day 0 and a client returning the single daily bar wDaily. -/
theorem c6_baseline_median_witness :
    (List.map ReactionRecord.session_day [wRecord] ≠ [])
    ∧ ([wDaily] = wClient2.get_daily_bars "T"
        (listMax (List.map ReactionRecord.session_day [wRecord]) - 120)
        (listMax (List.map ReactionRecord.session_day [wRecord])))
    ∧ ([wDaily] = (([wDaily].filter
        (fun b => b.date ∉ List.map ReactionRecord.session_day [wRecord])).insertionSort
          dateDesc).take 10)
    ∧ (([wDaily] = ([] : List DailyBar) →
        (mkScorer wClient2).median_abs_oc_non_earnings "T" [wRecord] = 0)
    ∧ ([wDaily] = ([] : List DailyBar) →
        (mkScorer wClient2).median_abs_oc_non_earnings "T" [wRecord] = 0)
    ∧ (([wDaily] : List DailyBar) ≠ [] → ([wDaily] : List DailyBar) ≠ [] →
        (mkScorer wClient2).median_abs_oc_non_earnings "T" [wRecord]
          = median ([wDaily].map (fun b => |b.cl / b.op - 1|)))
    ∧ ([wDaily] : List DailyBar).length ≤ 10
    ∧ (∀ b ∈ ([wDaily] : List DailyBar),
        b ∈ ([wDaily] : List DailyBar)
          ∧ b.date ∉ List.map ReactionRecord.session_day [wRecord])
    ∧ (∀ b ∈ ([wDaily] : List DailyBar), ∀ b' ∈ (([wDaily].filter
        (fun b => b.date ∉ List.map ReactionRecord.session_day [wRecord])).insertionSort
          dateDesc).drop 10, b'.date ≤ b.date)) :=
  ⟨by decide, by decide, by decide,
    c6_baseline_median wClient2 "T" [wRecord] [wDaily] [wDaily]
      (by decide) (by decide) (by decide)⟩

end EarningsMoverScanner
